import Mathlib

/-!
Verification development for the string-transformation DSL evaluator of
`src/operators.py` (Robust-Fill).  Python strings are modelled as `List Char`
(the DSL alphabet is ASCII by design), Python list indexing and slicing by
explicit helper functions with Python's negative-index/clamping semantics,
and Python exceptions (IndexError, AssertionError) by `Option`-valued
evaluators returning `none` exactly where the Python code can raise.
The `re.finditer`/`re.findall` calls only ever see character-class patterns
(`[c]`, `[c]+`, or `[A-Z][a-z]+`), so they are modelled by direct
left-to-right maximal-munch scanners over the character list.
-/

namespace RobustFill

/-- ASCII digit, the class `[0-9]`. -/
def isDigitA (c : Char) : Bool := 48 ≤ c.toNat && c.toNat ≤ 57

/-- ASCII uppercase letter, the class `[A-Z]`. -/
def isUpperA (c : Char) : Bool := 65 ≤ c.toNat && c.toNat ≤ 90

/-- ASCII lowercase letter, the class `[a-z]`. -/
def isLowerA (c : Char) : Bool := 97 ≤ c.toNat && c.toNat ≤ 122

/-- ASCII letter, the class `[A-Za-z]`. -/
def isAlphaA (c : Char) : Bool := isUpperA c || isLowerA c

/-- ASCII letter or digit, the class `[A-Za-z0-9]`. -/
def isAlnumA (c : Char) : Bool := isAlphaA c || isDigitA c

/-- Membership in Python's `string.punctuation + string.whitespace`
(the `DELIMITER` constant of operators.py), by ASCII code ranges:
punctuation is codes 33-47, 58-64, 91-96, 123-126 and whitespace is
space, tab, newline, carriage return, vertical tab, form feed. -/
def isDelimiter (c : Char) : Bool :=
  let n := c.toNat
  (33 ≤ n && n ≤ 47) || (58 ≤ n && n ≤ 64) || (91 ≤ n && n ≤ 96) ||
  (123 ≤ n && n ≤ 126) ||
  n == 32 || n == 9 || n == 10 || n == 13 || n == 11 || n == 12

/-- The `INDEX` vocabulary constant of operators.py: 0 is intentionally missing. -/
def INDEX : List Int := [-5, -4, -3, -2, -1, 1, 2, 3, 4, 5]

/-- The `Type` enum of operators.py (renamed, since `Type` is a Lean universe). -/
inductive Ty
  | NUMBER
  | WORD
  | ALPHANUM
  | ALL_CAPS
  | PROP_CASE
  | LOWER
  | DIGIT
  | CHAR
deriving DecidableEq, Repr

/-- The `Case` enum of operators.py. -/
inductive Case
  | PROPER
  | ALL_CAPS
  | LOWER
deriving DecidableEq, Repr

/-- The `Boundary` enum of operators.py. -/
inductive Boundary
  | START
  | END
deriving DecidableEq, Repr

/-- A DSL regex argument: either a `Type` value or a single delimiter
character (the `dsl_regex` convention of operators.py). -/
inductive DslRegex
  | ofType (t : Ty)
  | ofDelim (c : Char)
deriving DecidableEq, Repr

/-- Spans of `re.finditer` for a pattern `[class]+`: maximal nonempty runs of
characters satisfying `p`, scanning left to right.  The third argument is the
current position; the fourth remembers the start of the run in progress. -/
def runsGo (p : Char → Bool) : List Char → Nat → Option Nat → List (Nat × Nat)
  | [], _, none => []
  | [], i, some s => [(s, i)]
  | c :: cs, i, none =>
    if p c then runsGo p cs (i + 1) (some i) else runsGo p cs (i + 1) none
  | c :: cs, i, some s =>
    if p c then runsGo p cs (i + 1) (some s)
    else (s, i) :: runsGo p cs (i + 1) none

/-- Spans of `re.finditer` for a single-character class `[class]`: every
position whose character satisfies `p` is its own span. -/
def singlesGo (p : Char → Bool) : List Char → Nat → List (Nat × Nat)
  | [], _ => []
  | c :: cs, i =>
    if p c then (i, i + 1) :: singlesGo p cs (i + 1) else singlesGo p cs (i + 1)

/-- Scanner state for the `[A-Z][a-z]+` pattern (PROP_CASE): either scanning,
or just saw an uppercase letter at position `s`, or inside the lowercase run
of a match that started at position `s`. -/
inductive PcState
  | scan
  | sawUpper (s : Nat)
  | inRun (s : Nat)
deriving DecidableEq, Repr

/-- Spans of `re.finditer` for the pattern `[A-Z][a-z]+`: an uppercase letter
followed by a maximal nonempty run of lowercase letters, leftmost first,
non-overlapping. -/
def propGo : List Char → Nat → PcState → List (Nat × Nat)
  | [], i, PcState.inRun s => [(s, i)]
  | [], _, _ => []
  | c :: cs, i, PcState.scan =>
    if isUpperA c then propGo cs (i + 1) (PcState.sawUpper i)
    else propGo cs (i + 1) PcState.scan
  | c :: cs, i, PcState.sawUpper s =>
    if isLowerA c then propGo cs (i + 1) (PcState.inRun s)
    else if isUpperA c then propGo cs (i + 1) (PcState.sawUpper i)
    else propGo cs (i + 1) PcState.scan
  | c :: cs, i, PcState.inRun s =>
    if isLowerA c then propGo cs (i + 1) (PcState.inRun s)
    else (s, i) ::
      (if isUpperA c then propGo cs (i + 1) (PcState.sawUpper i)
       else propGo cs (i + 1) PcState.scan)

/-- Match spans of `regex_for_type(type_)` in `value`, as half-open
`(start, end)` offset pairs in left-to-right order (operators.py
`regex_for_type` composed with `re.finditer`). -/
def matchTypeSpans (t : Ty) (value : List Char) : List (Nat × Nat) :=
  match t with
  | Ty.NUMBER => runsGo isDigitA value 0 none
  | Ty.WORD => runsGo isAlphaA value 0 none
  | Ty.ALPHANUM => runsGo isAlnumA value 0 none
  | Ty.ALL_CAPS => runsGo isUpperA value 0 none
  | Ty.PROP_CASE => propGo value 0 PcState.scan
  | Ty.LOWER => runsGo isLowerA value 0 none
  | Ty.DIGIT => singlesGo isDigitA value 0
  | Ty.CHAR => singlesGo isAlnumA value 0

/-- Substring of `value` covered by the span `sp`. -/
def spanSlice (value : List Char) (sp : Nat × Nat) : List Char :=
  (value.drop sp.1).take (sp.2 - sp.1)

/-- The `match_type` function of operators.py: `re.findall` returns the
matched substrings (the patterns have no groups), one per span. -/
def match_type (t : Ty) (value : List Char) : List (List Char) :=
  (matchTypeSpans t value).map (spanSlice value)

/-- The `match_dsl_regex` function of operators.py, returning match spans.
For the delimiter-character variant the Python code asserts membership in
`DELIMITER`; a failed assertion raises, modelled by `none`. -/
def match_dsl_regex (r : DslRegex) (value : List Char) : Option (List (Nat × Nat)) :=
  match r with
  | DslRegex.ofType t => some (matchTypeSpans t value)
  | DslRegex.ofDelim c =>
    if isDelimiter c then some (singlesGo (fun d => d == c) value 0) else none

/-- Well-formedness of a `DslRegex`: the delimiter variant must draw its
character from `DELIMITER` (the assert in `match_dsl_regex`). -/
def DslRegex.wf : DslRegex → Prop
  | DslRegex.ofType _ => True
  | DslRegex.ofDelim c => isDelimiter c = true

/-- Normalize one endpoint of a Python slice `s[a:b]` on a sequence of
length `n`: negative indices count from the end, then clamp into `[0, n]`. -/
def pyIdx (n : Nat) (i : Int) : Nat :=
  if i < 0 then (i + n).toNat else min i.toNat n

/-- Python slice `s[a:b]` with arbitrary integer endpoints. -/
def pySlice (s : List Char) (a b : Int) : List Char :=
  (s.take (pyIdx s.length b)).drop (pyIdx s.length a)

/-- Python slice `s[a:]`. -/
def pySliceFrom (s : List Char) (a : Int) : List Char :=
  s.drop (pyIdx s.length a)

/-- Python slice `s[:b]`. -/
def pySliceTo (s : List Char) (b : Int) : List Char :=
  s.take (pyIdx s.length b)

/-- Python list indexing `l[i]`: nonnegative indices are 0-based from the
front, negative indices count from the end; out of range raises IndexError
(modelled by `none`). -/
def pyGet {α : Type} (l : List α) (i : Int) : Option α :=
  if 0 ≤ i then l[i.toNat]?
  else if -i ≤ (l.length : Int) then l[l.length - (-i).toNat]?
  else none

/-- The `SubStr._substr_index` static method: 1-based positive positions are
converted to 0-based; a negative position whose magnitude exceeds the length
is clamped to 0; any other negative position is kept as a negative offset. -/
def SubStr.substr_index (pos : Int) (value : List Char) : Int :=
  if pos > 0 then pos - 1
  else if (pos.natAbs : Int) > (value.length : Int) then 0
  else pos

/-- The `SubStr.eval` method: resolve both positions, special-case a resolved
`p2 == -1` to the suffix `value[p1:]`, otherwise return `value[p1:p2 + 1]`. -/
def SubStr.eval (pos1 pos2 : Int) (value : List Char) : List Char :=
  let p1 := SubStr.substr_index pos1 value
  let p2 := SubStr.substr_index pos2 value
  if p2 = -1 then pySliceFrom value p1
  else pySlice value p1 (p2 + 1)

/-- The `GetSpan._span_index` static method: positive indices become 0-based,
an index at or past `len(matches)` yields `len(matches) - 1`, an index below
`-len(matches)` yields `0`, and otherwise the selected span's start or end
offset per `bound`.  `none` only for a failed `match_dsl_regex` assert. -/
def GetSpan.span_index (r : DslRegex) (index : Int) (bound : Boundary)
    (value : List Char) : Option Int :=
  match match_dsl_regex r value with
  | none => none
  | some ms =>
    let i := if index < 0 then index else index - 1
    if i ≥ (ms.length : Int) then some ((ms.length : Int) - 1)
    else if i < -(ms.length : Int) then some 0
    else (pyGet ms i).map
      (fun sp => if bound = Boundary.START then (sp.1 : Int) else (sp.2 : Int))

/-- The `GetSpan.eval` method: resolve the two endpoint triples to positions
`p1, p2` and return the end-exclusive slice `value[p1:p2]`. -/
def GetSpan.eval (r1 : DslRegex) (i1 : Int) (b1 : Boundary)
    (r2 : DslRegex) (i2 : Int) (b2 : Boundary) (value : List Char) :
    Option (List Char) :=
  match GetSpan.span_index r1 i1 b1 value, GetSpan.span_index r2 i2 b2 value with
  | some p1, some p2 => some (pySlice value p1 p2)
  | _, _ => none

/-- The `GetToken.eval` method: positive indices are 1-based (decremented),
then `matches[i]` with Python indexing; out of range raises (`none`). -/
def GetToken.eval (t : Ty) (index : Int) (value : List Char) : Option (List Char) :=
  let ms := match_type t value
  let i := if index > 0 then index - 1 else index
  pyGet ms i

/-- Python `str.capitalize()` on ASCII strings: first character uppercased,
all remaining characters lowercased. -/
def pyCapitalize (value : List Char) : List Char :=
  match value with
  | [] => []
  | c :: cs => c.toUpper :: cs.map Char.toLower

/-- The `ToCase.eval` method (the `Case` enum is closed, so the defensive
`ValueError` branch of the Python code is unreachable). -/
def ToCase.eval (case : Case) (value : List Char) : List Char :=
  match case with
  | Case.PROPER => pyCapitalize value
  | Case.ALL_CAPS => value.map Char.toUpper
  | Case.LOWER => value.map Char.toLower

/-- The `GetUpto.eval` method: empty string when there is no match, else the
prefix `value[:first_match_end]`. -/
def GetUpto.eval (r : DslRegex) (value : List Char) : Option (List Char) :=
  (match_dsl_regex r value).map (fun ms =>
    match ms with
    | [] => []
    | first :: _ => pySliceTo value (first.2 : Int))

/-- The `GetFrom.eval` method: empty string when there is no match, else the
suffix `value[first_match_end:]`. -/
def GetFrom.eval (r : DslRegex) (value : List Char) : Option (List Char) :=
  (match_dsl_regex r value).map (fun ms =>
    match ms with
    | [] => []
    | first :: _ => pySliceFrom value (first.2 : Int))

/-- The `GetFirst.eval` method: raises IndexError on a negative index
(`none`), otherwise joins the first `index` matched substrings with no
separator (`''.join(matches[:index])`). -/
def GetFirst.eval (t : Ty) (index : Int) (value : List Char) : Option (List Char) :=
  let ms := match_type t value
  if index < 0 then none
  else some (List.flatten (ms.take index.toNat))

/-- The `GetAll.eval` method: joins all matched substrings with a single
space (`' '.join(match_type(...))`). -/
def GetAll.eval (t : Ty) (value : List Char) : List Char :=
  List.flatten (List.intersperse [' '] (match_type t value))

/-! Helper lemmas about the Python-semantics primitives. -/

/-- Python indexing succeeds exactly on the in-range indices
`-len(l) ≤ i < len(l)`. -/
theorem pyGet_isSome {α : Type} (l : List α) (i : Int)
    (h1 : -(l.length : Int) ≤ i) (h2 : i < (l.length : Int)) :
    (pyGet l i).isSome := by
  unfold pyGet
  by_cases h0 : 0 ≤ i
  · rw [if_pos h0]
    have hlt : i.toNat < l.length := by omega
    simp [List.getElem?_eq_getElem hlt]
  · rw [if_neg h0, if_pos (by omega)]
    have hlt : l.length - (-i).toNat < l.length := by omega
    simp [List.getElem?_eq_getElem hlt]

/-- Python indexing with a negative index reads from the reversed list. -/
theorem pyGet_neg {α : Type} (l : List α) (i : Int) (hi : i < 0) :
    pyGet l i = l.reverse[(-i).toNat - 1]? := by
  unfold pyGet
  rw [if_neg (by omega)]
  by_cases h : -i ≤ (l.length : Int)
  · rw [if_pos h]
    have hlt : (-i).toNat - 1 < l.length := by omega
    rw [List.getElem?_reverse hlt]
    congr 1
    omega
  · rw [if_neg h, eq_comm, List.getElem?_eq_none_iff, List.length_reverse]
    omega

/-- Python `l[-1]` is the last element. -/
theorem pyGet_neg_one {α : Type} (l : List α) : pyGet l (-1) = l.getLast? := by
  rw [pyGet_neg l (-1) (by omega), List.getLast?_eq_getElem?]
  rcases l with _ | ⟨a, l⟩
  · rfl
  · rw [List.getElem?_reverse (by simp)]
    congr 1

/-- A well-formed `DslRegex` passes the assert in `match_dsl_regex`. -/
theorem match_dsl_regex_isSome (r : DslRegex) (value : List Char) (h : r.wf) :
    ∃ ms, match_dsl_regex r value = some ms := by
  cases r with
  | ofType t => exact ⟨_, rfl⟩
  | ofDelim c =>
    simp only [DslRegex.wf] at h
    refine ⟨singlesGo (fun d => d == c) value 0, ?_⟩
    simp [match_dsl_regex, h]

/-- Span-index resolution never fails on a well-formed `DslRegex`: the two
clamping branches return directly, and the remaining branch accesses
`matches[i]` only for in-range `i`. -/
theorem span_index_isSome (r : DslRegex) (index : Int) (bound : Boundary)
    (value : List Char) (h : r.wf) :
    (GetSpan.span_index r index bound value).isSome := by
  obtain ⟨ms, hm⟩ := match_dsl_regex_isSome r value h
  unfold GetSpan.span_index
  rw [hm]
  simp only
  generalize (if index < 0 then index else index - 1) = i
  by_cases h1 : i ≥ (ms.length : Int)
  · rw [if_pos h1]; rfl
  · rw [if_neg h1]
    by_cases h2 : i < -(ms.length : Int)
    · rw [if_pos h2]; rfl
    · rw [if_neg h2, Option.isSome_map']
      exact pyGet_isSome ms i (by omega) (by omega)

/-- Normalizing a nonnegative slice endpoint just clamps it to the length. -/
theorem pyIdx_natCast (n b : Nat) : pyIdx n (b : Int) = min b n := by
  unfold pyIdx
  rw [if_neg (by omega)]
  congr 1

/-- Taking up to a clamped endpoint is plain `take`. -/
theorem take_min (l : List Char) (b : Nat) : l.take (min b l.length) = l.take b := by
  rcases le_total b l.length with h | h
  · rw [min_eq_left h]
  · rw [min_eq_right h, List.take_length, List.take_of_length_le h]

/-- Dropping from a clamped endpoint is plain `drop`. -/
theorem drop_min (l : List Char) (b : Nat) : l.drop (min b l.length) = l.drop b := by
  rcases le_total b l.length with h | h
  · rw [min_eq_left h]
  · rw [min_eq_right h, List.drop_length, List.drop_eq_nil_of_le h]

/-- The Python slice `value[:b]` at a nonnegative `b` is `take b`. -/
theorem pySliceTo_natCast (value : List Char) (b : Nat) :
    pySliceTo value (b : Int) = value.take b := by
  unfold pySliceTo
  rw [pyIdx_natCast, take_min]

/-- The Python slice `value[b:]` at a nonnegative `b` is `drop b`. -/
theorem pySliceFrom_natCast (value : List Char) (b : Nat) :
    pySliceFrom value (b : Int) = value.drop b := by
  unfold pySliceFrom
  rw [pyIdx_natCast, drop_min]

/-- Evaluating `GetUpto` when the first match span is known. -/
theorem GetUpto_eval_cons (r : DslRegex) (value : List Char) (a b : Nat)
    (rest : List (Nat × Nat))
    (hm : match_dsl_regex r value = some ((a, b) :: rest)) :
    GetUpto.eval r value = some (value.take b) := by
  unfold GetUpto.eval
  rw [hm, Option.map_some']
  simp only
  rw [pySliceTo_natCast]

/-- Evaluating `GetFrom` when the first match span is known. -/
theorem GetFrom_eval_cons (r : DslRegex) (value : List Char) (a b : Nat)
    (rest : List (Nat × Nat))
    (hm : match_dsl_regex r value = some ((a, b) :: rest)) :
    GetFrom.eval r value = some (value.drop b) := by
  unfold GetFrom.eval
  rw [hm, Option.map_some']
  simp only
  rw [pySliceFrom_natCast]

/-! Theorems settling the claims. -/

/-- C1, counterexample: on `"ab cd ef gh"` the WORD matches are
`(0,2), (3,5), (6,8), (9,11)`; for index `9` (adjusted index `8`, beyond the
`4` matches) `_span_index` resolves to `3` whatever the bound — which is
neither a start nor an end offset of the first or the last match, refuting
the claim that clamping always yields a boundary offset of an actual match. -/
theorem C1_counterexample :
    match_dsl_regex (DslRegex.ofType Ty.WORD)
      ['a','b',' ','c','d',' ','e','f',' ','g','h'] =
      some [(0, 2), (3, 5), (6, 8), (9, 11)] ∧
    GetSpan.span_index (DslRegex.ofType Ty.WORD) 9 Boundary.START
      ['a','b',' ','c','d',' ','e','f',' ','g','h'] = some 3 ∧
    GetSpan.span_index (DslRegex.ofType Ty.WORD) 9 Boundary.END
      ['a','b',' ','c','d',' ','e','f',' ','g','h'] = some 3 ∧
    ((3 : Int) ≠ 0 ∧ (3 : Int) ≠ 2 ∧ (3 : Int) ≠ 9 ∧ (3 : Int) ≠ 11) := by
  decide

/-- C1, amended: when the adjusted index (`index`, or `index - 1` when
nonnegative) is at or past `len(matches)`, `_span_index` returns the integer
`len(matches) - 1` itself, and when it is below `-len(matches)` it returns
`0` — the clamped index value is used directly as a character offset (the
bound is ignored), and evaluation never fails in these branches. -/
theorem C1_span_clamp_returns_clamped_index (r : DslRegex) (index : Int)
    (bound : Boundary) (value : List Char) (ms : List (Nat × Nat))
    (hm : match_dsl_regex r value = some ms) :
    ((if index < 0 then index else index - 1) ≥ (ms.length : Int) →
      GetSpan.span_index r index bound value = some ((ms.length : Int) - 1)) ∧
    ((if index < 0 then index else index - 1) < -(ms.length : Int) →
      GetSpan.span_index r index bound value = some 0) := by
  unfold GetSpan.span_index
  rw [hm]
  simp only
  constructor
  · intro hge
    rw [if_pos hge]
  · intro hlt
    generalize hgen : (if index < 0 then index else index - 1) = i at hlt ⊢
    rw [if_neg (by omega), if_pos hlt]

/-- C1, witness for the amended theorem: on `"ab cd ef gh"` (4 WORD matches)
index `-9` is below `-4`, and `_span_index` resolves to `0`. -/
theorem C1_witness :
    GetSpan.span_index (DslRegex.ofType Ty.WORD) (-9) Boundary.START
      ['a','b',' ','c','d',' ','e','f',' ','g','h'] = some 0 := by
  have h := C1_span_clamp_returns_clamped_index (DslRegex.ofType Ty.WORD) (-9)
    Boundary.START ['a','b',' ','c','d',' ','e','f',' ','g','h']
    [(0, 2), (3, 5), (6, 8), (9, 11)] (by decide)
  exact h.2 (by decide)

/-- C2: when the resolved second position equals `-1`, `SubStr.eval` returns
the suffix `value[p1:]`; in particular
`SubStr(1, -1).evaluate("hello") == "hello"`. -/
theorem C2_substr_suffix_special_case (pos1 pos2 : Int) (value : List Char)
    (h : SubStr.substr_index pos2 value = -1) :
    SubStr.eval pos1 pos2 value =
      pySliceFrom value (SubStr.substr_index pos1 value) ∧
    SubStr.eval 1 (-1) ['h','e','l','l','o'] = ['h','e','l','l','o'] := by
  refine ⟨?_, by decide⟩
  simp [SubStr.eval, h]

/-- C2, witness: `SubStr(1, -1)` on `"hello"` hits the special case (the
resolved second position is `-1`) and returns the whole string. -/
theorem C2_witness :
    SubStr.eval 1 (-1) ['h','e','l','l','o'] = ['h','e','l','l','o'] := by
  have h := C2_substr_suffix_special_case 1 (-1) ['h','e','l','l','o'] (by decide)
  exact h.1.trans (by decide)

/-- C3: for 1-based positions `1 ≤ p1 ≤ p2 ≤ len(s)`, `SubStr.eval` is the
slice `s[p1 - 1 : p2]`, inclusive of the character at 1-based position `p2`. -/
theorem C3_substr_in_range (s : List Char) (p1 p2 : Nat)
    (h1 : 1 ≤ p1) (h2 : p1 ≤ p2) (h3 : p2 ≤ s.length) :
    SubStr.eval (p1 : Int) (p2 : Int) s = (s.take p2).drop (p1 - 1) := by
  have hp1 : SubStr.substr_index (p1 : Int) s = (p1 : Int) - 1 := by
    unfold SubStr.substr_index
    rw [if_pos (by omega)]
  have hp2 : SubStr.substr_index (p2 : Int) s = (p2 : Int) - 1 := by
    unfold SubStr.substr_index
    rw [if_pos (by omega)]
  simp only [SubStr.eval, hp1, hp2]
  rw [if_neg (by omega)]
  unfold pySlice
  rw [show ((p2 : Int) - 1 + 1) = ((p2 : Nat) : Int) by omega]
  rw [show ((p1 : Int) - 1) = (((p1 - 1 : Nat)) : Int) by omega]
  rw [pyIdx_natCast, pyIdx_natCast, take_min]
  congr 1
  omega

/-- C3, witness: `SubStr(2, 4)` on `"hello"` is `"ell"`. -/
theorem C3_witness :
    SubStr.eval ((2 : Nat) : Int) ((4 : Nat) : Int) ['h','e','l','l','o'] =
      ['e','l','l'] := by
  have h := C3_substr_in_range ['h','e','l','l','o'] 2 4 (by decide) (by decide)
    (by decide)
  exact h.trans (by decide)

/-- C4: `GetFirst(WORD, -1)` raises on every input string whatsoever
(negative indices never clamp), while `GetToken(WORD, -1)` returns the last
WORD match and succeeds whenever at least one match exists. -/
theorem C4_getfirst_gettoken_asymmetry (value : List Char) :
    GetFirst.eval Ty.WORD (-1) value = none ∧
    GetToken.eval Ty.WORD (-1) value = (match_type Ty.WORD value).getLast? ∧
    (match_type Ty.WORD value ≠ [] →
      (GetToken.eval Ty.WORD (-1) value).isSome) := by
  have hg : GetToken.eval Ty.WORD (-1) value = (match_type Ty.WORD value).getLast? := by
    simp only [GetToken.eval]
    rw [if_neg (by omega)]
    exact pyGet_neg_one _
  refine ⟨by simp [GetFirst.eval], hg, fun h => ?_⟩
  rw [hg]
  exact List.getLast?_isSome.mpr h

/-- C4, witness: on `"ab cd"`, `GetFirst(WORD, -1)` fails while
`GetToken(WORD, -1)` succeeds and returns `"cd"`. -/
theorem C4_witness :
    GetFirst.eval Ty.WORD (-1) ['a','b',' ','c','d'] = none ∧
    GetToken.eval Ty.WORD (-1) ['a','b',' ','c','d'] = some ['c','d'] ∧
    (GetToken.eval Ty.WORD (-1) ['a','b',' ','c','d']).isSome := by
  have h := C4_getfirst_gettoken_asymmetry ['a','b',' ','c','d']
  exact ⟨h.1, h.2.1.trans (by decide), h.2.2 (by decide)⟩

/-- C5: `SubStr.eval` is total by construction (no operation in it can
raise), and `GetSpan.eval` succeeds on every input for well-formed
`DslRegex` arguments: out-of-range indices are clamped, never errors. -/
theorem C5_substr_getspan_never_raise (r1 : DslRegex) (i1 : Int) (b1 : Boundary)
    (r2 : DslRegex) (i2 : Int) (b2 : Boundary) (pos1 pos2 : Int)
    (value : List Char) (h1 : r1.wf) (h2 : r2.wf) :
    (GetSpan.eval r1 i1 b1 r2 i2 b2 value).isSome ∧
    ∃ out : List Char, SubStr.eval pos1 pos2 value = out := by
  refine ⟨?_, _, rfl⟩
  obtain ⟨p1, hp1⟩ := Option.isSome_iff_exists.mp (span_index_isSome r1 i1 b1 value h1)
  obtain ⟨p2, hp2⟩ := Option.isSome_iff_exists.mp (span_index_isSome r2 i2 b2 value h2)
  unfold GetSpan.eval
  rw [hp1, hp2]
  rfl

/-- C5, witness: a concrete `GetSpan` evaluation succeeds. -/
theorem C5_witness :
    (GetSpan.eval (DslRegex.ofType Ty.WORD) 1 Boundary.START
      (DslRegex.ofType Ty.WORD) 1 Boundary.END ['a','b']).isSome := by
  have h := C5_substr_getspan_never_raise (DslRegex.ofType Ty.WORD) 1
    Boundary.START (DslRegex.ofType Ty.WORD) 1 Boundary.END 1 2 ['a','b']
    trivial trivial
  exact h.1

/-- C6: `GetToken` resolves a positive index `i` to `matches[i - 1]` and a
negative index to a direct offset from the end (element `(-i) - 1` of the
reversed match list); evaluation fails exactly when that resolved position
falls outside the match list, with no clamping. -/
theorem C6_gettoken_bounds (t : Ty) (index : Int) (value : List Char)
    (hnz : index ≠ 0) :
    (0 < index →
      GetToken.eval t index value = (match_type t value)[index.toNat - 1]?) ∧
    (index < 0 →
      GetToken.eval t index value =
        (match_type t value).reverse[(-index).toNat - 1]?) ∧
    (GetToken.eval t index value = none ↔
      (match_type t value).length <
        (if 0 < index then index.toNat else (-index).toNat)) := by
  have hpos : 0 < index →
      GetToken.eval t index value = (match_type t value)[index.toNat - 1]? := by
    intro hp
    simp only [GetToken.eval]
    rw [if_pos (by omega)]
    unfold pyGet
    rw [if_pos (by omega)]
    congr 1
    omega
  have hneg : index < 0 →
      GetToken.eval t index value =
        (match_type t value).reverse[(-index).toNat - 1]? := by
    intro hn
    simp only [GetToken.eval]
    rw [if_neg (by omega)]
    exact pyGet_neg _ index hn
  refine ⟨hpos, hneg, ?_⟩
  rcases lt_trichotomy index 0 with hn | rfl | hp
  · rw [hneg hn, if_neg (by omega), List.getElem?_eq_none_iff, List.length_reverse]
    omega
  · exact absurd rfl hnz
  · rw [hpos hp, if_pos hp, List.getElem?_eq_none_iff]
    omega

/-- C6, witness: `GetToken(WORD, -1)` on `"ab cd"` resolves to the last
match `"cd"`. -/
theorem C6_witness :
    GetToken.eval Ty.WORD (-1) ['a','b',' ','c','d'] = some ['c','d'] := by
  have h := C6_gettoken_bounds Ty.WORD (-1) ['a','b',' ','c','d'] (by decide)
  exact (h.2.1 (by decide)).trans (by decide)

/-- C7: `ToCase(PROPER)` uppercases the first character and lowercases all
remaining characters of the whole string (not per-word); in particular
`ToCase(PROPER).evaluate("hELLO wORLD") == "Hello world"`. -/
theorem C7_tocase_proper_whole_string (c : Char) (cs : List Char) :
    ToCase.eval Case.PROPER (c :: cs) = c.toUpper :: cs.map Char.toLower ∧
    ToCase.eval Case.PROPER ['h','E','L','L','O',' ','w','O','R','L','D'] =
      ['H','e','l','l','o',' ','w','o','r','l','d'] :=
  ⟨rfl, by decide⟩

/-- C8: `GetUpto` returns the empty string when the DSL regex has no match
and otherwise the prefix up to the end of the first match; `GetFrom`
likewise returns the empty string or the suffix from the end of the first
match. -/
theorem C8_getupto_getfrom_first_match (r : DslRegex) (value : List Char)
    (ms : List (Nat × Nat)) (hm : match_dsl_regex r value = some ms) :
    (ms = [] → GetUpto.eval r value = some [] ∧ GetFrom.eval r value = some []) ∧
    (∀ a b rest, ms = (a, b) :: rest →
      GetUpto.eval r value = some (value.take b) ∧
      GetFrom.eval r value = some (value.drop b)) := by
  constructor
  · rintro rfl
    constructor
    · unfold GetUpto.eval
      rw [hm, Option.map_some']
    · unfold GetFrom.eval
      rw [hm, Option.map_some']
  · rintro a b rest rfl
    exact ⟨GetUpto_eval_cons r value a b rest hm, GetFrom_eval_cons r value a b rest hm⟩

/-- C8, witness: `GetUpto(DIGIT)` on `"abc1def"` is `"abc1"` and
`GetFrom(DIGIT)` is `"def"`. -/
theorem C8_witness :
    GetUpto.eval (DslRegex.ofType Ty.DIGIT) ['a','b','c','1','d','e','f'] =
      some ['a','b','c','1'] ∧
    GetFrom.eval (DslRegex.ofType Ty.DIGIT) ['a','b','c','1','d','e','f'] =
      some ['d','e','f'] := by
  have h := C8_getupto_getfrom_first_match (DslRegex.ofType Ty.DIGIT)
    ['a','b','c','1','d','e','f'] [(3, 4)] (by decide)
  obtain ⟨hu, hf⟩ := h.2 3 4 [] rfl
  exact ⟨hu.trans (by decide), hf.trans (by decide)⟩

/-- C9: `GetToken(category, 0)` does not fail when at least one match exists
and returns the first match, behaving identically to index `1`, although the
declared `INDEX` vocabulary excludes `0`. -/
theorem C9_gettoken_zero_index (t : Ty) (value : List Char)
    (m : List Char) (rest : List (List Char))
    (hm : match_type t value = m :: rest) :
    GetToken.eval t 0 value = some m ∧
    GetToken.eval t 0 value = GetToken.eval t 1 value ∧
    (0 : Int) ∉ INDEX := by
  refine ⟨?_, ?_, by decide⟩
  · simp [GetToken.eval, hm, pyGet]
  · norm_num [GetToken.eval]

/-- C9, witness: `GetToken(WORD, 0)` on `"ab cd"` returns `"ab"`. -/
theorem C9_witness :
    GetToken.eval Ty.WORD 0 ['a','b',' ','c','d'] = some ['a','b'] := by
  have h := C9_gettoken_zero_index Ty.WORD ['a','b',' ','c','d'] ['a','b']
    [['c','d']] (by decide)
  exact h.1

/-- C10: when the DSL regex has at least one match, `GetUpto` and `GetFrom`
split the input exactly at the end of the first match, so their results
concatenate back to the input. -/
theorem C10_getupto_getfrom_concat (r : DslRegex) (value : List Char)
    (a b : Nat) (rest : List (Nat × Nat))
    (hm : match_dsl_regex r value = some ((a, b) :: rest)) :
    ∃ u f, GetUpto.eval r value = some u ∧ GetFrom.eval r value = some f ∧
      u ++ f = value :=
  ⟨value.take b, value.drop b, GetUpto_eval_cons r value a b rest hm,
    GetFrom_eval_cons r value a b rest hm, List.take_append_drop b value⟩

/-- C10, witness: on `"abc1def"` with DIGIT, the two parts `"abc1"` and
`"def"` concatenate back to the input. -/
theorem C10_witness :
    ∃ u f,
      GetUpto.eval (DslRegex.ofType Ty.DIGIT) ['a','b','c','1','d','e','f'] =
        some u ∧
      GetFrom.eval (DslRegex.ofType Ty.DIGIT) ['a','b','c','1','d','e','f'] =
        some f ∧
      u ++ f = ['a','b','c','1','d','e','f'] :=
  C10_getupto_getfrom_concat (DslRegex.ofType Ty.DIGIT)
    ['a','b','c','1','d','e','f'] 3 4 [] (by decide)

end RobustFill
